import Mathlib

/-!
Verification of the SRV-record service agent (`src/lib/index.js`).

The development shallowly embeds the two parts of the program that the
claims are about:

* `internals.groupSrvRecords` — the priority-then-weighted-random
  reordering of SRV records.  Randomness (`Math.random()` draws) is
  modelled by an explicit finite stream of natural numbers, one entry per
  executed draw; a draw with stream value `r` and positive running total
  weight `tw` yields the uniform value `r % tw`, and `0` when `tw = 0`
  (in JS, `Math.floor(Math.random() * 0) = 0`).  A run that exhausts the
  stream before a group is reduced to one member returns `none`
  (the corresponding JS execution has not yet terminated on that prefix
  of the random stream).

* `ServiceAgent.addRequest` together with the two `Dns.resolveSrv`
  callbacks — modelled as a labelled state machine.  The agent state
  holds the three per-key maps (`mappedRecord`, `resolvedTimeMap`,
  `resolvingMap`) and the multiset of in-flight DNS lookups; the
  synchronous body of `addRequest` is one atomic step (JS run-to-
  completion semantics) and each callback invocation is another step.
-/

namespace SrvAgent

/-- One SRV record as returned by `Dns.resolveSrv`: `name`, `port`,
`priority`, `weight`. -/
structure Addr where
  name : String
  port : Nat
  priority : Nat
  weight : Nat
deriving DecidableEq, Repr

/-- The inner walk of `groupSrvRecords` (line 47–50 of `index.js`):
`let index = -1; while (++index < group.length && w > 0) w -= group[index].weight;`
returns the value of `index` on loop exit.  `w` is an `Int` because the
running subtraction may go negative. -/
def walkIndex : Int → List Addr → Nat
  | _, [] => 0
  | w, a :: rest => if 0 < w then walkIndex (w - (a.weight : Int)) rest + 1 else 0

/-- `totalWeight` of a group (lines 37–40): the sum of the members' weights. -/
def groupWeight (g : List Addr) : Nat := (g.map Addr.weight).sum

/-- Sum of the weights of the first `k` members of a group. -/
def prefixWeight (g : List Addr) (k : Nat) : Nat := ((g.take k).map Addr.weight).sum

/-- The `while (group.length > 1)` loop of `groupSrvRecords`
(lines 44–64), followed by the final `result.push(group[0])`.
Returns the members in the order they are appended to `result`
(the drawn members, then the last remaining one) together with the
unconsumed tail of the random stream, or `none` when the stream is
exhausted before the loop exits. -/
def weightedShuffle (rands : List Nat) (g : List Addr) (tw : Nat) :
    Option (List Addr × List Nat) :=
  if g.length ≤ 1 then some (g, rands)
  else
    match rands with
    | [] => none
    | r :: rs =>
      let w : Int := if tw = 0 then 0 else ((r % tw : Nat) : Int)
      match g[walkIndex w g]? with
      | some addr =>
        match weightedShuffle rs (g.eraseIdx (walkIndex w g)) (tw - addr.weight) with
        | none => none
        | some (out, rest) => some (addr :: out, rest)
      | none => weightedShuffle rs g tw

/-- The per-priority iteration of `groupSrvRecords` (line 31): the sorted
distinct priorities are processed in order, each group being the input
records of that priority in input order. -/
def processGroups : List Nat → List Nat → List Addr → Option (List Addr × List Nat)
  | rands, [], _ => some ([], rands)
  | rands, p :: ps, addrs =>
    let group := addrs.filter (fun a => decide (a.priority = p))
    match weightedShuffle rands group (groupWeight group) with
    | none => none
    | some (out1, rs1) =>
      match processGroups rs1 ps addrs with
      | none => none
      | some (out2, rs2) => some (out1 ++ out2, rs2)

/-- `internals.groupSrvRecords` (lines 18–68): partition by priority,
iterate the priority keys in ascending numeric order, weighted-shuffle
each group. -/
def groupSrvRecords (rands : List Nat) (addrs : List Addr) :
    Option (List Addr × List Nat) :=
  processGroups rands (List.insertionSort (· ≤ ·) ((addrs.map Addr.priority).dedup)) addrs

/-- The fields of `options` that `addRequest` reads: `options.host` and
`options.port` (`options.localAddress` is passed through unchanged). -/
structure ReqOptions where
  host : String
  port : Nat
deriving DecidableEq, Repr

/-- Agent configuration after the constructor ran: the normalized
`service` record-name part and `intervalMilliSecs` (`intervalSeconds * 1000`,
default 0). -/
structure AgentConfig where
  intervalMilliSecs : Nat
  service : String
deriving DecidableEq, Repr

/-- An outstanding `Dns.resolveSrv` call: either the background refresh
started at line 171 or the cache-miss lookup started at line 204 (whose
callback closes over the request's options). -/
inductive PendingLookup where
  | refresh (key : String)
  | firstLookup (key : String) (req : ReqOptions)
deriving DecidableEq, Repr

/-- An observable dispatch: either `super.addRequest(req, addr.name,
addr.port || options.port, options.localAddress)` at line 155, or the
fallback `super.addRequest(req, options, ...extra)` at line 217 with the
caller's options unchanged. -/
inductive Event where
  | dispatched (addr : Addr) (port : Nat)
  | fallback (host : String) (port : Nat)
deriving DecidableEq, Repr

/-- Lookup in a plain-object map, modelled as an association list
(most recent write first). -/
def mapFind {V : Type} : List (String × V) → String → Option V
  | [], _ => none
  | (k, v) :: rest, key => if k = key then some v else mapFind rest key

/-- Property write `m[key] = v` on a plain-object map. -/
def mapSet {V : Type} (m : List (String × V)) (k : String) (v : V) :
    List (String × V) :=
  (k, v) :: m

/-- JS `a || b` for the two `Nat` ports involved: `0` is the only falsy
value an SRV port field can take. -/
def jsOr (a b : Nat) : Nat := if a = 0 then b else a

/-- The mutable fields of one `ServiceAgent` plus the multiset of
in-flight `Dns.resolveSrv` calls.  `resolving` is the set of keys whose
`resolvingMap` entry is the string `'fetching'`. -/
structure AgentState where
  mappedRecord : List (String × List Addr)
  resolvedTimeMap : List (String × Nat)
  resolving : List String
  pending : List PendingLookup
deriving DecidableEq, Repr

/-- A fresh agent: all three maps empty, no lookup in flight. -/
def initState : AgentState := ⟨[], [], [], []⟩

/-- `const srvRecord = this.service + options.host` (line 130). -/
def srvKey (cfg : AgentConfig) (req : ReqOptions) : String := cfg.service ++ req.host

/-- The `sentRequest` closure (lines 132–156): run `groupSrvRecords` over
the record list, `.shift()` the first element, dispatch to
`(addr.name, addr.port || options.port)`.  `none` when the weighted walk
does not finish on the given random stream (or the record list is empty,
in which case the JS code would throw on `undefined`). -/
def sentRequest (rands : List Nat) (records : List Addr) (req : ReqOptions) :
    Option (Event × List Nat) :=
  match groupSrvRecords rands records with
  | none => none
  | some (out, rs) =>
    match out.head? with
    | none => none
    | some addr => some (.dispatched addr (jsOr addr.port req.port), rs)

/-- The synchronous body of `ServiceAgent.addRequest` (lines 128–224), one
atomic step under JS run-to-completion: on the cached path (interval on and
both maps populated for the key) it possibly registers a background refresh
and dispatches from the current cache; otherwise it only starts a cache-miss
lookup (line 204) whose callback is a later `completeFirstStep`.  Returns
the new state and the dispatch performed during this call, if any. -/
def addRequestStep (cfg : AgentConfig) (s : AgentState) (req : ReqOptions)
    (now : Nat) (rands : List Nat) : AgentState × Option Event :=
  let key := srvKey cfg req
  match mapFind s.mappedRecord key, mapFind s.resolvedTimeMap key with
  | some records, some t =>
    if 0 < cfg.intervalMilliSecs then
      let s1 :=
        if cfg.intervalMilliSecs ≤ now - t then
          if key ∈ s.resolving then s
          else { s with resolving := key :: s.resolving,
                        pending := .refresh key :: s.pending }
        else s
      (s1, (sentRequest rands records req).map Prod.fst)
    else
      ({ s with pending := .firstLookup key req :: s.pending }, none)
  | _, _ => ({ s with pending := .firstLookup key req :: s.pending }, none)

/-- Remove the first occurrence of a completed lookup from the in-flight
multiset. -/
def removeFirstPending : List PendingLookup → PendingLookup → List PendingLookup
  | [], _ => []
  | x :: xs, y => if x = y then xs else x :: removeFirstPending xs y

/-- The cache write of both DNS callbacks (lines 183–186 and 220–221): on
`err` (`outcome = none`) or an empty result nothing is written; otherwise
both `mappedRecord` and `resolvedTimeMap` are set. -/
def outcomeWrite (s : AgentState) (key : String) (outcome : Option (List Addr))
    (now : Nat) : AgentState :=
  match outcome with
  | none => s
  | some addrs =>
    if addrs.isEmpty then s
    else { s with mappedRecord := mapSet s.mappedRecord key addrs,
                  resolvedTimeMap := mapSet s.resolvedTimeMap key now }

/-- Completion of a background refresh (the callback at lines 171–192):
conditionally write the cache, then `delete this.resolvingMap[srvRecord]`
in every outcome. -/
def completeRefreshStep (s : AgentState) (key : String)
    (outcome : Option (List Addr)) (now : Nat) : AgentState :=
  let s1 := outcomeWrite s key outcome now
  { s1 with resolving := s1.resolving.filter (fun k => decide (k ≠ key)),
            pending := removeFirstPending s1.pending (.refresh key) }

/-- Completion of a cache-miss lookup (the callback at lines 204–223): on
`err` or empty result dispatch with the caller's original options
(line 217); on success write both cache maps and dispatch via
`sentRequest` from the fresh records. -/
def completeFirstStep (s : AgentState) (key : String) (req : ReqOptions)
    (outcome : Option (List Addr)) (now : Nat) (rands : List Nat) :
    AgentState × Option Event :=
  let s0 := { s with pending := removeFirstPending s.pending (.firstLookup key req) }
  match outcome with
  | none => (s0, some (.fallback req.host req.port))
  | some addrs =>
    if addrs.isEmpty then (s0, some (.fallback req.host req.port))
    else
      let s1 := { s0 with mappedRecord := mapSet s0.mappedRecord key addrs,
                          resolvedTimeMap := mapSet s0.resolvedTimeMap key now }
      (s1, (sentRequest rands addrs req).map Prod.fst)

/-- The states a `ServiceAgent` can be in: the initial state, plus closure
under one `addRequest` call and completion of any in-flight lookup. -/
inductive Reachable (cfg : AgentConfig) : AgentState → Prop where
  | init : Reachable cfg initState
  | addReq {s : AgentState} (req : ReqOptions) (now : Nat) (rands : List Nat) :
      Reachable cfg s → Reachable cfg (addRequestStep cfg s req now rands).1
  | refreshDone {s : AgentState} (key : String) (outcome : Option (List Addr)) (now : Nat) :
      Reachable cfg s → PendingLookup.refresh key ∈ s.pending →
      Reachable cfg (completeRefreshStep s key outcome now)
  | firstDone {s : AgentState} (key : String) (req : ReqOptions)
      (outcome : Option (List Addr)) (now : Nat) (rands : List Nat) :
      Reachable cfg s → PendingLookup.firstLookup key req ∈ s.pending →
      Reachable cfg (completeFirstStep s key req outcome now rands).1

/-- The service key an in-flight lookup is for. -/
def pendKey : PendingLookup → String
  | .refresh k => k
  | .firstLookup k _ => k

/-- Number of occurrences of one specific lookup in the in-flight multiset. -/
def countPend : List PendingLookup → PendingLookup → Nat
  | [], _ => 0
  | x :: xs, y => (if x = y then 1 else 0) + countPend xs y

/-- Number of in-flight lookups (of either kind) for a given key. -/
def countKey : List PendingLookup → String → Nat
  | [], _ => 0
  | x :: xs, k => (if pendKey x = k then 1 else 0) + countKey xs k

/-! ### Properties of the inner walk -/

lemma walkIndex_nonpos (g : List Addr) (w : Int) (hw : w ≤ 0) : walkIndex w g = 0 := by
  cases g with
  | nil => rfl
  | cons a rest =>
    have hneg : ¬ (0 < w) := by omega
    simp [walkIndex, hneg]

lemma walkIndex_le_length (w : Int) (g : List Addr) : walkIndex w g ≤ g.length := by
  induction g generalizing w with
  | nil => simp [walkIndex]
  | cons a rest ih =>
    by_cases hw : 0 < w
    · simp only [walkIndex, if_pos hw, List.length_cons]
      exact Nat.succ_le_succ (ih _)
    · simp [walkIndex, hw]

lemma prefixWeight_zero (g : List Addr) : prefixWeight g 0 = 0 := rfl

lemma prefixWeight_cons_succ (a : Addr) (g : List Addr) (j : Nat) :
    prefixWeight (a :: g) (j + 1) = a.weight + prefixWeight g j := by
  simp [prefixWeight, List.take_succ_cons]

lemma walkIndex_spec (g : List Addr) (w : Nat) :
    (∀ j, j < walkIndex (w : Int) g → prefixWeight g j < w) ∧
    (walkIndex (w : Int) g < g.length → w ≤ prefixWeight g (walkIndex (w : Int) g)) := by
  induction g generalizing w with
  | nil => simp [walkIndex]
  | cons a rest ih =>
    by_cases hw : 0 < w
    · have hw' : (0 : Int) < (w : Int) := by exact_mod_cast hw
      by_cases hw2 : w ≤ a.weight
      · have hz : walkIndex ((w : Int) - (a.weight : Int)) rest = 0 :=
          walkIndex_nonpos rest _ (by omega)
        simp only [walkIndex, if_pos hw', hz, List.length_cons]
        constructor
        · intro j hj
          have : j = 0 := by omega
          subst this
          simpa [prefixWeight_zero] using hw
        · intro _
          rw [prefixWeight_cons_succ, prefixWeight_zero]
          omega
      · have hcast : (w : Int) - (a.weight : Int) = ((w - a.weight : Nat) : Int) := by
          omega
        simp only [walkIndex, if_pos hw', hcast, List.length_cons]
        obtain ⟨ih1, ih2⟩ := ih (w - a.weight)
        constructor
        · intro j hj
          cases j with
          | zero => simpa [prefixWeight_zero] using hw
          | succ j' =>
            rw [prefixWeight_cons_succ]
            have := ih1 j' (by omega)
            omega
        · intro hlt
          rw [prefixWeight_cons_succ]
          have := ih2 (by omega)
          omega
    · have hw' : ¬ ((0 : Int) < (w : Int)) := by exact_mod_cast hw
      simp only [walkIndex, if_neg hw']
      exact ⟨by omega, fun _ => by rw [prefixWeight_zero]; omega⟩

/-! ### Unfolding lemmas for the shuffle loop -/

lemma weightedShuffle_short (rands : List Nat) (g : List Addr) (tw : Nat)
    (h : g.length ≤ 1) : weightedShuffle rands g tw = some (g, rands) := by
  rw [weightedShuffle.eq_def, if_pos h]

lemma weightedShuffle_nil (g : List Addr) (tw : Nat) (h : 1 < g.length) :
    weightedShuffle [] g tw = none := by
  rw [weightedShuffle.eq_def, if_neg (by omega)]

lemma weightedShuffle_cons (r : Nat) (rs : List Nat) (g : List Addr) (tw : Nat)
    (h : 1 < g.length) :
    weightedShuffle (r :: rs) g tw =
      match g[walkIndex (if tw = 0 then 0 else ((r % tw : Nat) : Int)) g]? with
      | some addr =>
        match weightedShuffle rs
            (g.eraseIdx (walkIndex (if tw = 0 then 0 else ((r % tw : Nat) : Int)) g))
            (tw - addr.weight) with
        | none => none
        | some (out, rest) => some (addr :: out, rest)
      | none => weightedShuffle rs g tw := by
  rw [weightedShuffle.eq_def, if_neg (by omega)]

/-! ### Permutation facts -/

lemma get_cons_eraseIdx_perm (g : List Addr) (k : Nat) (h : k < g.length) :
    g.Perm (g[k] :: g.eraseIdx k) := by
  have h2 : g[k] :: g.eraseIdx k = g[k] :: (g.take k ++ g.drop (k + 1)) := by
    rw [List.eraseIdx_eq_take_drop_succ]
  rw [h2]
  conv_lhs => rw [← List.take_append_drop k g, List.drop_eq_getElem_cons h]
  exact List.perm_middle

lemma groupWeight_eraseIdx (g : List Addr) (k : Nat) (h : k < g.length) :
    groupWeight g = g[k].weight + groupWeight (g.eraseIdx k) := by
  have := ((get_cons_eraseIdx_perm g k h).map Addr.weight).sum_eq
  simpa [groupWeight] using this

lemma weightedShuffle_perm (rands : List Nat) (g : List Addr) (tw : Nat)
    (out : List Addr) (rest : List Nat)
    (h : weightedShuffle rands g tw = some (out, rest)) : out.Perm g := by
  induction rands generalizing g tw out rest with
  | nil =>
    by_cases hlen : g.length ≤ 1
    · rw [weightedShuffle_short _ _ _ hlen] at h
      obtain ⟨rfl, rfl⟩ := Prod.mk.injEq .. ▸ Option.some.injEq .. ▸ h
      exact List.Perm.refl _
    · rw [weightedShuffle_nil _ _ (by omega)] at h
      exact absurd h (by simp)
  | cons r rs ih =>
    by_cases hlen : g.length ≤ 1
    · rw [weightedShuffle_short _ _ _ hlen] at h
      obtain ⟨rfl, rfl⟩ := Prod.mk.injEq .. ▸ Option.some.injEq .. ▸ h
      exact List.Perm.refl _
    · rw [weightedShuffle_cons _ _ _ _ (by omega)] at h
      generalize hk : walkIndex (if tw = 0 then 0 else ((r % tw : Nat) : Int)) g = k at h
      split at h
      · rename_i addr hidx
        obtain ⟨hklen, hget⟩ := List.getElem?_eq_some.mp hidx
        split at h
        · exact absurd h (by simp)
        · rename_i out2 rest2 hrec
          obtain ⟨rfl, rfl⟩ := Prod.mk.injEq .. ▸ Option.some.injEq .. ▸ h
          have hperm := ih _ _ _ _ hrec
          exact (hperm.cons addr).trans (hget ▸ get_cons_eraseIdx_perm g k hklen).symm
      · exact ih _ _ _ _ h

/-! ### Per-group and whole-list correctness of `groupSrvRecords` -/

lemma filter_priority_split (p : Nat) (ps : List Nat) (hp : p ∉ ps) (addrs : List Addr) :
    (addrs.filter (fun a => decide (a.priority ∈ p :: ps))).Perm
      (addrs.filter (fun a => decide (a.priority = p)) ++
       addrs.filter (fun a => decide (a.priority ∈ ps))) := by
  induction addrs with
  | nil => simp
  | cons a rest ih =>
    simp only [List.filter_cons]
    by_cases h1 : a.priority = p
    · rw [if_pos (by simp [h1]), if_pos (by simp [h1]), if_neg (by simp [h1, hp])]
      exact ih.cons a
    · by_cases h2 : a.priority ∈ ps
      · rw [if_pos (by simp [h2]), if_neg (by simp [h1]), if_pos (by simp [h2])]
        exact (ih.cons a).trans List.perm_middle.symm
      · rw [if_neg (by simp [h1, h2]), if_neg (by simp [h1]), if_neg (by simp [h2])]
        exact ih

lemma pairwise_const_priority (l : List Addr) (p : Nat)
    (h : ∀ a ∈ l, a.priority = p) :
    l.Pairwise (fun a b => a.priority ≤ b.priority) := by
  induction l with
  | nil => exact List.Pairwise.nil
  | cons a rest ih =>
    refine List.Pairwise.cons (fun b hb => ?_) (ih fun b hb => h b (List.mem_cons_of_mem _ hb))
    rw [h a (List.mem_cons_self _ _), h b (List.mem_cons_of_mem _ hb)]

lemma processGroups_spec (prios : List Nat) (rands : List Nat) (addrs : List Addr)
    (out : List Addr) (rest : List Nat)
    (hnd : prios.Nodup)
    (h : processGroups rands prios addrs = some (out, rest)) :
    out.Perm (addrs.filter (fun a => decide (a.priority ∈ prios))) ∧
    (prios.Pairwise (· ≤ ·) → out.Pairwise (fun a b => a.priority ≤ b.priority)) := by
  induction prios generalizing rands out rest with
  | nil =>
    simp only [processGroups] at h
    obtain ⟨rfl, rfl⟩ := Prod.mk.injEq .. ▸ Option.some.injEq .. ▸ h
    simp
  | cons p ps ih =>
    rw [List.nodup_cons] at hnd
    obtain ⟨hp, hnd'⟩ := hnd
    simp only [processGroups] at h
    split at h
    · exact absurd h (by simp)
    · rename_i out1 rs1 hws
      split at h
      · exact absurd h (by simp)
      · rename_i out2 rs2 hpg
        obtain ⟨rfl, rfl⟩ := Prod.mk.injEq .. ▸ Option.some.injEq .. ▸ h
        obtain ⟨ih1, ih2⟩ := ih rs1 out2 rs2 hnd' hpg
        have hout1 : out1.Perm (addrs.filter (fun a => decide (a.priority = p))) :=
          weightedShuffle_perm _ _ _ _ _ hws
        constructor
        · exact (hout1.append ih1).trans (filter_priority_split p ps hp addrs).symm
        · intro hs
          rw [List.pairwise_cons] at hs
          obtain ⟨hle, hps⟩ := hs
          rw [List.pairwise_append]
          refine ⟨?_, ih2 hps, ?_⟩
          · refine pairwise_const_priority out1 p fun a ha => ?_
            simpa using (List.mem_filter.mp (hout1.subset ha)).2
          · intro a ha b hb
            have hap : a.priority = p := by
              simpa using (List.mem_filter.mp (hout1.subset ha)).2
            have hbp : b.priority ∈ ps := by
              simpa using (List.mem_filter.mp (ih1.subset hb)).2
            rw [hap]
            exact hle _ hbp

/-- C4: for every input record list and every random stream on which the
algorithm terminates, the output of `groupSrvRecords` is a permutation of
the input (same multiset), and the output is pairwise ordered by
non-decreasing priority — hence any two output records A, B with
`A.priority < B.priority` have A before B.  (The embedding is pure, so the
input list is not mutated by construction.) -/
theorem C4_groupSrvRecords_perm_sorted (rands : List Nat) (addrs out : List Addr)
    (rest : List Nat)
    (h : groupSrvRecords rands addrs = some (out, rest)) :
    out.Perm addrs ∧ out.Pairwise (fun a b => a.priority ≤ b.priority) := by
  unfold groupSrvRecords at h
  have hnd : (List.insertionSort (· ≤ ·) ((addrs.map Addr.priority).dedup)).Nodup :=
    ((List.perm_insertionSort (· ≤ ·) ((addrs.map Addr.priority).dedup)).symm).nodup
      (List.nodup_dedup _)
  obtain ⟨h1, h2⟩ := processGroups_spec _ rands addrs out rest hnd h
  have hmem : ∀ a ∈ addrs,
      decide (a.priority ∈ List.insertionSort (· ≤ ·) ((addrs.map Addr.priority).dedup))
        = true := by
    intro a ha
    simp only [decide_eq_true_eq]
    rw [(List.perm_insertionSort (· ≤ ·) _).mem_iff]
    exact List.mem_dedup.mpr (List.mem_map_of_mem _ ha)
  rw [List.filter_eq_self.mpr hmem] at h1
  exact ⟨h1, h2 (List.sorted_insertionSort (· ≤ ·) _)⟩

/-- Two records of equal priority and weights 2 and 3, used as concrete
inputs below. -/
def aA : Addr := ⟨"a", 80, 0, 2⟩

/-- See `aA`. -/
def aB : Addr := ⟨"b", 81, 0, 3⟩

/-- Witness for C4: on the concrete input `[aA, aB]` with random stream
`[1]`, `groupSrvRecords` returns `[aB, aA]`, and the theorem yields the
permutation and priority-order facts for it. -/
theorem C4_witness :
    [aB, aA].Perm [aA, aB] ∧
      List.Pairwise (fun a b => a.priority ≤ b.priority) [aB, aA] :=
  C4_groupSrvRecords_perm_sorted [1] [aA, aB] [aB, aA] [] (by decide)

/-! ### The all-zero-weight group -/

lemma groupWeight_zero (g : List Addr) (h : ∀ a ∈ g, a.weight = 0) : groupWeight g = 0 := by
  refine List.sum_eq_zero fun x hx => ?_
  obtain ⟨a, ha, rfl⟩ := List.mem_map.mp hx
  exact h a ha

lemma weightedShuffle_allZero (rands : List Nat) (g : List Addr)
    (hz : ∀ a ∈ g, a.weight = 0) (hlen : g.length ≤ rands.length + 1) :
    weightedShuffle rands g 0 = some (g, rands.drop (g.length - 1)) := by
  induction rands generalizing g with
  | nil =>
    have h1 : g.length ≤ 1 := by simpa using hlen
    rw [weightedShuffle_short _ _ _ h1]
    simp
  | cons r rs ih =>
    by_cases h1 : g.length ≤ 1
    · rw [weightedShuffle_short _ _ _ h1]
      have h2 : g.length - 1 = 0 := by omega
      rw [h2]
      rfl
    · obtain ⟨a, rest, rfl⟩ : ∃ a rest, g = a :: rest := by
        cases g with
        | nil => simp at h1
        | cons a rest => exact ⟨a, rest, rfl⟩
      have hz' : ∀ b ∈ rest, b.weight = 0 := fun b hb => hz b (List.mem_cons_of_mem _ hb)
      have hlen' : rest.length ≤ rs.length + 1 := by
        simp only [List.length_cons] at hlen
        omega
      rw [weightedShuffle_cons _ _ _ _ (by omega)]
      have hwz : walkIndex (if (0 : Nat) = 0 then (0 : Int) else ((r % 0 : Nat) : Int))
          (a :: rest) = 0 := by
        rw [if_pos rfl]
        exact walkIndex_nonpos _ _ le_rfl
      rw [hwz]
      simp only [List.getElem?_cons_zero, List.eraseIdx_cons_zero, Nat.zero_sub]
      rw [ih rest hz' hlen']
      simp only [List.length_cons]
      have h2 : rest.length + 1 - 1 = (rest.length - 1) + 1 := by
        simp only [List.length_cons] at h1
        omega
      rw [h2, List.drop_succ_cons]

/-- C8: a priority group in which every member has weight 0 still
terminates and is emitted whole: `totalWeight` is 0, every draw yields
`w = 0` (the JS `Math.floor(Math.random() * 0)`), the walk exits at index
0, so each draw deterministically removes the first remaining member.
Consequently the loop needs exactly `length - 1` draws, succeeds on every
sufficiently long random stream, and outputs the group itself (a complete
permutation, in input order). -/
theorem C8_allZeroWeights_terminates (g : List Addr) (rands : List Nat)
    (hz : ∀ a ∈ g, a.weight = 0) (hlen : g.length ≤ rands.length + 1) :
    weightedShuffle rands g (groupWeight g) = some (g, rands.drop (g.length - 1)) := by
  rw [groupWeight_zero g hz]
  exact weightedShuffle_allZero rands g hz hlen

/-- A zero-weight record for the C8 witness. -/
def zA : Addr := ⟨"u", 1, 7, 0⟩

/-- See `zA`. -/
def zB : Addr := ⟨"v", 2, 7, 0⟩

/-- See `zA`. -/
def zC : Addr := ⟨"w", 3, 7, 0⟩

/-- Witness for C8: the three-member all-zero-weight group is emitted
whole after exactly two draws. -/
theorem C8_witness :
    weightedShuffle [9, 4] [zA, zB, zC] (groupWeight [zA, zB, zC])
      = some ([zA, zB, zC], []) :=
  C8_allZeroWeights_terminates [zA, zB, zC] [9, 4] (by decide) (by decide)

/-! ### The exact behaviour of one draw (claim C1) -/

/-- C1 counterexample: with the group `[aA, aB]` (weights 2 and 3,
`totalWeight = 5`), the draw `w = 1` lies in the cumulative weight range
of `aA` (`prefixWeight 0 = 0 ≤ 1 < 2 = prefixWeight 1`), yet the code
removes and emits `aB` first — not the member whose cumulative range
contains `w`.  Moreover the in-range draw `w = 4` removes no member at
all: the single-draw stream `[4]` ends with the loop still holding both
members (`none`), refuting "every draw removes one member". -/
theorem C1_counterexample :
    weightedShuffle [1] [aA, aB] (groupWeight [aA, aB]) = some ([aB, aA], []) ∧
    1 < groupWeight [aA, aB] ∧
    prefixWeight [aA, aB] 0 ≤ 1 ∧ 1 < prefixWeight [aA, aB] 1 ∧
    4 < groupWeight [aA, aB] ∧
    weightedShuffle [4] [aA, aB] (groupWeight [aA, aB]) = none := by
  decide

/-- C1 (amended): one draw step of the weighted selection, for a group
with more than one remaining member and `tw` the sum of the remaining
members' weights, draws `w` uniform in `[0, tw)` (`w = 0` when `tw = 0`),
and walks the members while the running value stays strictly positive;
the exit index `k` is the first index whose weight prefix-sum reaches
`w` (so the selected member is the one *after* the member at which the
running subtraction of `w` first goes non-positive, and `k = 0` when
`w = 0`), capped at the group length.  If `k` is inside the group, member
`k` is removed and prepended to the rest of the run, and the running
total weight is reduced by exactly that member's weight (staying the sum
of the remaining weights); if `k` equals the group length (i.e. `w`
exceeds the prefix-sum of all members but the last), the draw removes no
member and the loop redraws. -/
theorem C1_drawStep_amended (g : List Addr) (r : Nat) (rs : List Nat) (tw w k : Nat)
    (htw : tw = groupWeight g) (hlen : 1 < g.length)
    (hw : w = if tw = 0 then 0 else r % tw)
    (hk : k = walkIndex (w : Int) g) :
    (0 < tw → w < tw) ∧
    k ≤ g.length ∧
    (∀ j, j < k → prefixWeight g j < w) ∧
    (∀ h : k < g.length,
      w ≤ prefixWeight g k ∧
      groupWeight (g.eraseIdx k) = tw - g[k].weight ∧
      weightedShuffle (r :: rs) g tw =
        (weightedShuffle rs (g.eraseIdx k) (tw - g[k].weight)).map
          (fun q => (g[k] :: q.1, q.2)) ∧
      g[k].weight ≤ tw) ∧
    (k = g.length → weightedShuffle (r :: rs) g tw = weightedShuffle rs g tw) := by
  have hcast : (if tw = 0 then (0 : Int) else ((r % tw : Nat) : Int)) = ((w : Nat) : Int) := by
    rw [hw]
    split <;> simp
  refine ⟨?_, ?_, ?_, ?_, ?_⟩
  · intro htw0
    rw [hw, if_neg (by omega)]
    exact Nat.mod_lt _ htw0
  · rw [hk]
    exact walkIndex_le_length _ _
  · intro j hj
    rw [hk] at hj
    exact (walkIndex_spec g w).1 j hj
  · intro hklt
    have hspec := (walkIndex_spec g w).2
    rw [← hk] at hspec
    have hgw := groupWeight_eraseIdx g k hklt
    refine ⟨hspec hklt, by omega, ?_, by omega⟩
    rw [weightedShuffle_cons r rs g tw hlen, hcast, ← hk, List.getElem?_eq_getElem hklt]
    cases hws : weightedShuffle rs (g.eraseIdx k) (tw - g[k].weight) with
    | none => simp [hws]
    | some pr => simp [hws]
  · intro hkeq
    rw [weightedShuffle_cons r rs g tw hlen, hcast, ← hk,
      List.getElem?_eq_none (by omega)]

/-- Witness for the amended C1: the draw step at the concrete group
`[aA, aB]`, draw value 1, exit index 1 (member `aB` selected). -/
theorem C1_amended_witness :
    ((0 < 5 → 1 < 5) ∧
     1 ≤ [aA, aB].length ∧
     (∀ j, j < 1 → prefixWeight [aA, aB] j < 1) ∧
     (∀ h : 1 < [aA, aB].length,
       1 ≤ prefixWeight [aA, aB] 1 ∧
       groupWeight ([aA, aB].eraseIdx 1) = 5 - [aA, aB][1].weight ∧
       weightedShuffle [1, 0] [aA, aB] 5 =
         (weightedShuffle [0] ([aA, aB].eraseIdx 1) (5 - [aA, aB][1].weight)).map
           (fun q => ([aA, aB][1] :: q.1, q.2)) ∧
       [aA, aB][1].weight ≤ 5) ∧
     (1 = [aA, aB].length → weightedShuffle [1, 0] [aA, aB] 5 = weightedShuffle [0] [aA, aB] 5)) :=
  C1_drawStep_amended [aA, aB] 1 [0] 5 1 1 (by decide) (by decide) (by decide) (by decide)

/-! ### Map and multiset helper lemmas for the agent state -/

lemma mapFind_mapSet {V : Type} (m : List (String × V)) (k key : String) (v : V) :
    mapFind (mapSet m k v) key = if k = key then some v else mapFind m key := rfl

lemma countPend_pos_of_mem (l : List PendingLookup) (y : PendingLookup) (h : y ∈ l) :
    1 ≤ countPend l y := by
  induction l with
  | nil => simp at h
  | cons x xs ih =>
    rw [List.mem_cons] at h
    rcases h with rfl | h'
    · simp [countPend]
    · have hle := ih h'
      simp only [countPend]
      split <;> omega

lemma countPend_removeFirst_self (l : List PendingLookup) (y : PendingLookup)
    (h : y ∈ l) : countPend (removeFirstPending l y) y = countPend l y - 1 := by
  induction l with
  | nil => simp at h
  | cons x xs ih =>
    by_cases hxy : x = y
    · subst hxy
      simp [removeFirstPending, countPend]
    · rw [List.mem_cons] at h
      have h' : y ∈ xs := h.resolve_left fun he => hxy he.symm
      have hpos := countPend_pos_of_mem xs y h'
      simp only [removeFirstPending, if_neg hxy, countPend, ih h']
      omega

lemma countPend_removeFirst_ne (l : List PendingLookup) (x y : PendingLookup)
    (hne : x ≠ y) : countPend (removeFirstPending l y) x = countPend l x := by
  induction l with
  | nil => rfl
  | cons z zs ih =>
    by_cases hzy : z = y
    · subst hzy
      have hzx : z ≠ x := fun hc => hne (hc ▸ rfl)
      simp [removeFirstPending, countPend, hzx]
    · simp [removeFirstPending, hzy, countPend, ih]

/-! ### Shape of each step of the agent -/

lemma addRequestStep_miss_none (cfg : AgentConfig) (s : AgentState) (req : ReqOptions)
    (now : Nat) (rands : List Nat)
    (hm : mapFind s.mappedRecord (srvKey cfg req) = none) :
    addRequestStep cfg s req now rands =
      ({ s with pending := .firstLookup (srvKey cfg req) req :: s.pending }, none) := by
  simp only [addRequestStep]
  rw [hm]

lemma addRequestStep_miss_timeNone (cfg : AgentConfig) (s : AgentState) (req : ReqOptions)
    (now : Nat) (rands : List Nat)
    (ht : mapFind s.resolvedTimeMap (srvKey cfg req) = none) :
    addRequestStep cfg s req now rands =
      ({ s with pending := .firstLookup (srvKey cfg req) req :: s.pending }, none) := by
  simp only [addRequestStep]
  rw [ht]
  cases mapFind s.mappedRecord (srvKey cfg req) <;> rfl

lemma addRequestStep_interval0 (cfg : AgentConfig) (s : AgentState) (req : ReqOptions)
    (now : Nat) (rands : List Nat) (h0 : cfg.intervalMilliSecs = 0) :
    addRequestStep cfg s req now rands =
      ({ s with pending := .firstLookup (srvKey cfg req) req :: s.pending }, none) := by
  simp only [addRequestStep]
  cases mapFind s.mappedRecord (srvKey cfg req) with
  | none => rfl
  | some records =>
    cases mapFind s.resolvedTimeMap (srvKey cfg req) with
    | none => rfl
    | some t => simp [h0]

lemma addRequestStep_fresh (cfg : AgentConfig) (s : AgentState) (req : ReqOptions)
    (now t : Nat) (rands : List Nat) (records : List Addr)
    (hm : mapFind s.mappedRecord (srvKey cfg req) = some records)
    (ht : mapFind s.resolvedTimeMap (srvKey cfg req) = some t)
    (hint : 0 < cfg.intervalMilliSecs)
    (hfresh : ¬ cfg.intervalMilliSecs ≤ now - t) :
    addRequestStep cfg s req now rands =
      (s, (sentRequest rands records req).map Prod.fst) := by
  simp only [addRequestStep]
  rw [hm, ht]
  simp [hint, hfresh]

lemma addRequestStep_stale_skip (cfg : AgentConfig) (s : AgentState) (req : ReqOptions)
    (now t : Nat) (rands : List Nat) (records : List Addr)
    (hm : mapFind s.mappedRecord (srvKey cfg req) = some records)
    (ht : mapFind s.resolvedTimeMap (srvKey cfg req) = some t)
    (hint : 0 < cfg.intervalMilliSecs)
    (hstale : cfg.intervalMilliSecs ≤ now - t)
    (hmem : srvKey cfg req ∈ s.resolving) :
    addRequestStep cfg s req now rands =
      (s, (sentRequest rands records req).map Prod.fst) := by
  simp only [addRequestStep]
  rw [hm, ht]
  simp [hint, hstale, hmem]

lemma addRequestStep_stale_start (cfg : AgentConfig) (s : AgentState) (req : ReqOptions)
    (now t : Nat) (rands : List Nat) (records : List Addr)
    (hm : mapFind s.mappedRecord (srvKey cfg req) = some records)
    (ht : mapFind s.resolvedTimeMap (srvKey cfg req) = some t)
    (hint : 0 < cfg.intervalMilliSecs)
    (hstale : cfg.intervalMilliSecs ≤ now - t)
    (hmem : srvKey cfg req ∉ s.resolving) :
    addRequestStep cfg s req now rands =
      ({ s with resolving := srvKey cfg req :: s.resolving,
                pending := .refresh (srvKey cfg req) :: s.pending },
       (sentRequest rands records req).map Prod.fst) := by
  simp only [addRequestStep]
  rw [hm, ht]
  simp [hint, hstale, hmem]

lemma addRequestStep_char (cfg : AgentConfig) (s : AgentState) (req : ReqOptions)
    (now : Nat) (rands : List Nat) :
    ((addRequestStep cfg s req now rands).1.mappedRecord = s.mappedRecord ∧
     (addRequestStep cfg s req now rands).1.resolvedTimeMap = s.resolvedTimeMap) ∧
    (((addRequestStep cfg s req now rands).1.pending = s.pending ∧
      (addRequestStep cfg s req now rands).1.resolving = s.resolving) ∨
     (srvKey cfg req ∉ s.resolving ∧
      (addRequestStep cfg s req now rands).1.pending
          = .refresh (srvKey cfg req) :: s.pending ∧
      (addRequestStep cfg s req now rands).1.resolving
          = srvKey cfg req :: s.resolving) ∨
     ((addRequestStep cfg s req now rands).1.pending
          = .firstLookup (srvKey cfg req) req :: s.pending ∧
      (addRequestStep cfg s req now rands).1.resolving = s.resolving)) := by
  cases hm : mapFind s.mappedRecord (srvKey cfg req) with
  | none =>
    rw [addRequestStep_miss_none cfg s req now rands hm]
    exact ⟨⟨rfl, rfl⟩, Or.inr (Or.inr ⟨rfl, rfl⟩)⟩
  | some records =>
    cases ht : mapFind s.resolvedTimeMap (srvKey cfg req) with
    | none =>
      rw [addRequestStep_miss_timeNone cfg s req now rands ht]
      exact ⟨⟨rfl, rfl⟩, Or.inr (Or.inr ⟨rfl, rfl⟩)⟩
    | some t =>
      by_cases hint : 0 < cfg.intervalMilliSecs
      · by_cases hstale : cfg.intervalMilliSecs ≤ now - t
        · by_cases hmem : srvKey cfg req ∈ s.resolving
          · rw [addRequestStep_stale_skip cfg s req now t rands records hm ht hint hstale hmem]
            exact ⟨⟨rfl, rfl⟩, Or.inl ⟨rfl, rfl⟩⟩
          · rw [addRequestStep_stale_start cfg s req now t rands records hm ht hint hstale hmem]
            exact ⟨⟨rfl, rfl⟩, Or.inr (Or.inl ⟨hmem, rfl, rfl⟩)⟩
        · rw [addRequestStep_fresh cfg s req now t rands records hm ht hint hstale]
          exact ⟨⟨rfl, rfl⟩, Or.inl ⟨rfl, rfl⟩⟩
      · rw [addRequestStep_interval0 cfg s req now rands (by omega)]
        exact ⟨⟨rfl, rfl⟩, Or.inr (Or.inr ⟨rfl, rfl⟩)⟩

lemma completeRefreshStep_char (s : AgentState) (key : String)
    (outcome : Option (List Addr)) (now : Nat) :
    (completeRefreshStep s key outcome now).pending
        = removeFirstPending s.pending (.refresh key) ∧
    (completeRefreshStep s key outcome now).resolving
        = s.resolving.filter (fun k => decide (k ≠ key)) ∧
    (((completeRefreshStep s key outcome now).mappedRecord = s.mappedRecord ∧
      (completeRefreshStep s key outcome now).resolvedTimeMap = s.resolvedTimeMap) ∨
     (∃ addrs, outcome = some addrs ∧ addrs ≠ [] ∧
      (completeRefreshStep s key outcome now).mappedRecord
          = mapSet s.mappedRecord key addrs ∧
      (completeRefreshStep s key outcome now).resolvedTimeMap
          = mapSet s.resolvedTimeMap key now)) := by
  cases outcome with
  | none => exact ⟨rfl, rfl, Or.inl ⟨rfl, rfl⟩⟩
  | some addrs =>
    by_cases he : addrs.isEmpty
    · exact ⟨by simp [completeRefreshStep, outcomeWrite, he],
        by simp [completeRefreshStep, outcomeWrite, he],
        Or.inl ⟨by simp [completeRefreshStep, outcomeWrite, he],
          by simp [completeRefreshStep, outcomeWrite, he]⟩⟩
    · have hne : addrs ≠ [] := by
        intro hc
        rw [hc] at he
        exact he rfl
      exact ⟨by simp [completeRefreshStep, outcomeWrite, he],
        by simp [completeRefreshStep, outcomeWrite, he],
        Or.inr ⟨addrs, rfl, hne, by simp [completeRefreshStep, outcomeWrite, he],
          by simp [completeRefreshStep, outcomeWrite, he]⟩⟩

lemma completeFirstStep_char (s : AgentState) (key : String) (req : ReqOptions)
    (outcome : Option (List Addr)) (now : Nat) (rands : List Nat) :
    (completeFirstStep s key req outcome now rands).1.pending
        = removeFirstPending s.pending (.firstLookup key req) ∧
    (completeFirstStep s key req outcome now rands).1.resolving = s.resolving ∧
    (((completeFirstStep s key req outcome now rands).1.mappedRecord = s.mappedRecord ∧
      (completeFirstStep s key req outcome now rands).1.resolvedTimeMap
          = s.resolvedTimeMap) ∨
     (∃ addrs, outcome = some addrs ∧ addrs ≠ [] ∧
      (completeFirstStep s key req outcome now rands).1.mappedRecord
          = mapSet s.mappedRecord key addrs ∧
      (completeFirstStep s key req outcome now rands).1.resolvedTimeMap
          = mapSet s.resolvedTimeMap key now)) := by
  cases outcome with
  | none => exact ⟨rfl, rfl, Or.inl ⟨rfl, rfl⟩⟩
  | some addrs =>
    by_cases he : addrs.isEmpty
    · exact ⟨by simp [completeFirstStep, he], by simp [completeFirstStep, he],
        Or.inl ⟨by simp [completeFirstStep, he], by simp [completeFirstStep, he]⟩⟩
    · have hne : addrs ≠ [] := by
        intro hc
        rw [hc] at he
        exact he rfl
      exact ⟨by simp [completeFirstStep, he], by simp [completeFirstStep, he],
        Or.inr ⟨addrs, rfl, hne, by simp [completeFirstStep, he],
          by simp [completeFirstStep, he]⟩⟩

/-! ### Concrete configurations and states used as inputs below -/

/-- A configuration with background refresh disabled
(`intervalSeconds = 0`, the default). -/
def cfg0 : AgentConfig := ⟨0, "_http._tcp."⟩

/-- A configuration with a 60-second refresh interval. -/
def cfg1 : AgentConfig := ⟨60000, "_http._tcp."⟩

/-- A concrete request. -/
def req0 : ReqOptions := ⟨"svc", 80⟩

/-- A concrete SRV record. -/
def rec0 : Addr := ⟨"target", 8080, 10, 5⟩

/-- Agent state after one `addRequest` miss for `req0` under `cfg0` and
the successful completion of its lookup with `[rec0]`: the cache holds a
non-empty entry for the key while `intervalMilliSecs = 0`. -/
def stateC2 : AgentState :=
  (completeFirstStep (addRequestStep cfg0 initState req0 0 []).1 (srvKey cfg0 req0) req0
    (some [rec0]) 1 []).1

/-- Agent state after two `addRequest` calls for the same uncached key
under `cfg1`, before either lookup completes. -/
def stateC3 : AgentState :=
  (addRequestStep cfg1 (addRequestStep cfg1 initState req0 0 []).1 req0 0 []).1

/-- Agent state under `cfg1` with a cache entry for `req0` resolved at
time 0 (one miss, then a successful lookup completion). -/
def statePop : AgentState :=
  (completeFirstStep (addRequestStep cfg1 initState req0 0 []).1 (srvKey cfg1 req0) req0
    (some [rec0]) 0 []).1

/-- `statePop` after an `addRequest` at time 70000: the entry is stale, so
a background refresh is started. -/
def stateC3a : AgentState := (addRequestStep cfg1 statePop req0 70000 []).1

/-! ### Claims about the agent -/

/-- C2 counterexample: `stateC2` is reachable under `cfg0`
(`intervalMilliSecs = 0`), its cache holds the non-empty entry `[rec0]`
for the key, yet the next selection call for that key is *not* served
from the cached entry with no further lookup: the call dispatches nothing
synchronously (`.2 = none`) and starts a brand-new lookup (an in-flight
`firstLookup` is added), because a zero interval disables the
cached-record path entirely rather than making the entry permanently
fresh. -/
theorem C2_counterexample :
    Reachable cfg0 stateC2 ∧
    cfg0.intervalMilliSecs = 0 ∧
    mapFind stateC2.mappedRecord (srvKey cfg0 req0) = some [rec0] ∧
    (addRequestStep cfg0 stateC2 req0 5 []).2 = none ∧
    (addRequestStep cfg0 stateC2 req0 5 []).1.pending
        = [PendingLookup.firstLookup (srvKey cfg0 req0) req0] := by
  refine ⟨?_, by decide, by decide, by decide, by decide⟩
  exact Reachable.firstDone (srvKey cfg0 req0) req0 (some [rec0]) 1 []
    (Reachable.addReq req0 0 [] Reachable.init) (by decide)

/-- C2 (amended): when the configured refresh interval is 0, every
selection call takes the cache-miss path regardless of any cache entry:
it dispatches nothing synchronously and starts a new lookup for the key
(the cached-record fast path at line 158 requires
`intervalMilliSecs > 0`). -/
theorem C2_ttlZero_always_looks_up (cfg : AgentConfig) (s : AgentState) (req : ReqOptions)
    (now : Nat) (rands : List Nat) (h0 : cfg.intervalMilliSecs = 0) :
    addRequestStep cfg s req now rands =
      ({ s with pending := .firstLookup (srvKey cfg req) req :: s.pending }, none) :=
  addRequestStep_interval0 cfg s req now rands h0

/-- Witness for the amended C2 at the concrete reachable state `stateC2`. -/
theorem C2_amended_witness :
    addRequestStep cfg0 stateC2 req0 5 []
      = ({ stateC2 with
            pending := PendingLookup.firstLookup (srvKey cfg0 req0) req0
              :: stateC2.pending },
         none) :=
  C2_ttlZero_always_looks_up cfg0 stateC2 req0 5 [] rfl

/-- C3 counterexample: the cache-miss lookup path is not single-flight.
`stateC3` — reached by two `addRequest` calls for the same uncached key,
before either DNS callback runs — is reachable and holds **two**
simultaneously in-flight lookups for that key, refuting "at most one
lookup call for that key is in flight at every reachable state". -/
theorem C3_counterexample :
    Reachable cfg1 stateC3 ∧ countKey stateC3.pending (srvKey cfg1 req0) = 2 :=
  ⟨Reachable.addReq req0 0 [] (Reachable.addReq req0 0 [] Reachable.init), by decide⟩

/-- C3 (amended): the *background-refresh* path is single-flight: at every
reachable state, the number of in-flight background refreshes for a key is
1 when the key's `resolvingMap` entry is `'fetching'` and 0 otherwise (so
never more than one; a stale-entry call finding the marker set does not
start a second refresh).  The cache-miss first-lookup path, by contrast,
is not gated at all (see the counterexample). -/
theorem C3_refresh_single_flight (cfg : AgentConfig) (s : AgentState)
    (h : Reachable cfg s) (key : String) :
    countPend s.pending (.refresh key) = if key ∈ s.resolving then 1 else 0 := by
  induction h with
  | init => simp [initState, countPend]
  | addReq req now rands hr ih =>
    rename_i s'
    obtain ⟨_, hcase⟩ := addRequestStep_char cfg s' req now rands
    rcases hcase with ⟨hp, hres⟩ | ⟨hmem, hp, hres⟩ | ⟨hp, hres⟩
    · rw [hp, hres]
      exact ih
    · rw [hp, hres]
      by_cases hk : srvKey cfg req = key
      · subst hk
        have h1 : PendingLookup.refresh (srvKey cfg req)
            = PendingLookup.refresh (srvKey cfg req) := rfl
        simp only [countPend, if_pos h1]
        rw [ih, if_neg hmem, if_pos (List.mem_cons_self _ _)]
        simp
      · have h1 : PendingLookup.refresh (srvKey cfg req) ≠ PendingLookup.refresh key := by
          intro hc
          cases hc
          exact hk rfl
        have h2 : (key ∈ srvKey cfg req :: s'.resolving) ↔ key ∈ s'.resolving := by
          rw [List.mem_cons]
          constructor
          · intro hor
            exact hor.resolve_left fun he => hk he.symm
          · exact Or.inr
        simp only [countPend, if_neg h1]
        rw [ih, if_congr h2 rfl rfl]
        exact Nat.zero_add _
    · rw [hp, hres]
      have h1 : PendingLookup.firstLookup (srvKey cfg req) req
          ≠ PendingLookup.refresh key := by
        intro hc
        cases hc
      simp only [countPend, if_neg h1]
      rw [ih]
      exact Nat.zero_add _
  | refreshDone key' outcome now hr hmem ih =>
    rename_i s'
    obtain ⟨hp, hres, _⟩ := completeRefreshStep_char s' key' outcome now
    rw [hp, hres]
    by_cases hk : key' = key
    · subst hk
      have hmemr : key' ∈ s'.resolving := by
        by_contra hno
        have hc := countPend_pos_of_mem _ _ hmem
        rw [ih, if_neg hno] at hc
        omega
      rw [countPend_removeFirst_self _ _ hmem, ih, if_pos hmemr]
      have hnot : key' ∉ s'.resolving.filter (fun k => decide (k ≠ key')) := by
        simp [List.mem_filter]
      rw [if_neg hnot]
    · have hne : PendingLookup.refresh key ≠ PendingLookup.refresh key' := by
        intro hc
        cases hc
        exact hk rfl
      rw [countPend_removeFirst_ne _ _ _ hne, ih]
      have hiff : (key ∈ s'.resolving.filter (fun k => decide (k ≠ key')))
          ↔ key ∈ s'.resolving := by
        simp only [List.mem_filter, decide_eq_true_eq]
        constructor
        · exact fun hand => hand.1
        · exact fun hin => ⟨hin, fun hc => hk hc.symm⟩
      rw [if_congr hiff rfl rfl]
  | firstDone key' req outcome now rands hr hmem ih =>
    rename_i s'
    obtain ⟨hp, hres, _⟩ := completeFirstStep_char s' key' req outcome now rands
    rw [hp, hres]
    have hne : PendingLookup.refresh key ≠ PendingLookup.firstLookup key' req := by
      intro hc
      cases hc
    rw [countPend_removeFirst_ne _ _ _ hne]
    exact ih

/-- Witness for the amended C3 at the reachable state `stateC3a`, which
has one background refresh in flight and its key marked `'fetching'`. -/
theorem C3_amended_witness :
    countPend stateC3a.pending (PendingLookup.refresh (srvKey cfg1 req0))
      = if srvKey cfg1 req0 ∈ stateC3a.resolving then 1 else 0 :=
  C3_refresh_single_flight cfg1 stateC3a
    (Reachable.addReq req0 70000 []
      (Reachable.firstDone (srvKey cfg1 req0) req0 (some [rec0]) 0 []
        (Reachable.addReq req0 0 [] Reachable.init) (by decide)))
    (srvKey cfg1 req0)

/-- C5: when a background refresh completes with an error or an empty
record list, the cache (`mappedRecord` and `resolvedTimeMap`) is left
exactly as it was; and in every outcome the `'fetching'` marker for the
key is cleared on completion. -/
theorem C5_refresh_failure_preserves_cache (s : AgentState) (key : String)
    (outcome : Option (List Addr)) (now : Nat) :
    ((outcome = none ∨ outcome = some []) →
      (completeRefreshStep s key outcome now).mappedRecord = s.mappedRecord ∧
      (completeRefreshStep s key outcome now).resolvedTimeMap = s.resolvedTimeMap) ∧
    key ∉ (completeRefreshStep s key outcome now).resolving := by
  constructor
  · rintro (rfl | rfl)
    · exact ⟨rfl, rfl⟩
    · exact ⟨by simp [completeRefreshStep, outcomeWrite],
        by simp [completeRefreshStep, outcomeWrite]⟩
  · cases outcome with
    | none => simp [completeRefreshStep, outcomeWrite, List.mem_filter]
    | some addrs =>
      by_cases he : addrs.isEmpty <;>
        simp [completeRefreshStep, outcomeWrite, he, List.mem_filter]

/-- Witness for C5 at the reachable state `stateC3a` (refresh in flight),
completing with an empty result. -/
theorem C5_witness :
    ((some ([] : List Addr) = none ∨ some ([] : List Addr) = some []) →
      (completeRefreshStep stateC3a (srvKey cfg1 req0) (some []) 90000).mappedRecord
          = stateC3a.mappedRecord ∧
      (completeRefreshStep stateC3a (srvKey cfg1 req0) (some []) 90000).resolvedTimeMap
          = stateC3a.resolvedTimeMap) ∧
    srvKey cfg1 req0
      ∉ (completeRefreshStep stateC3a (srvKey cfg1 req0) (some []) 90000).resolving :=
  C5_refresh_failure_preserves_cache stateC3a (srvKey cfg1 req0) (some []) 90000

/-- C6: on a key with no cache entry, when the miss-path lookup completes
with an error or zero records, the request is dispatched with exactly the
caller's original options (host and port unchanged), and the cache still
has no entry for the key afterwards. -/
theorem C6_miss_failure_fallback (s : AgentState) (key : String) (req : ReqOptions)
    (outcome : Option (List Addr)) (now : Nat) (rands : List Nat)
    (hm : mapFind s.mappedRecord key = none)
    (ht : mapFind s.resolvedTimeMap key = none)
    (hfail : outcome = none ∨ outcome = some []) :
    (completeFirstStep s key req outcome now rands).2
        = some (.fallback req.host req.port) ∧
    mapFind (completeFirstStep s key req outcome now rands).1.mappedRecord key = none ∧
    mapFind (completeFirstStep s key req outcome now rands).1.resolvedTimeMap key
        = none := by
  rcases hfail with rfl | rfl
  · exact ⟨rfl, hm, ht⟩
  · exact ⟨by simp [completeFirstStep], by simpa [completeFirstStep] using hm,
      by simpa [completeFirstStep] using ht⟩

/-- Witness for C6: a failing first lookup on the fresh agent dispatches
the fallback and leaves the cache empty. -/
theorem C6_witness :
    (completeFirstStep initState (srvKey cfg1 req0) req0 none 0 []).2
        = some (.fallback req0.host req0.port) ∧
    mapFind (completeFirstStep initState (srvKey cfg1 req0) req0 none 0 []).1.mappedRecord
        (srvKey cfg1 req0) = none ∧
    mapFind (completeFirstStep initState (srvKey cfg1 req0) req0 none 0 []).1.resolvedTimeMap
        (srvKey cfg1 req0) = none :=
  C6_miss_failure_fallback initState (srvKey cfg1 req0) req0 none 0 [] rfl rfl (Or.inl rfl)

/-- C7: a selection call that finds a cached entry older than the
configured interval dispatches during the call itself, computed by
`sentRequest` from the record list `records` held in the cache at the
moment of the call; the call leaves both cache maps untouched (so the
eventual refresh result is not waited for), and when a refresh was
triggered it is still in flight when the call returns. -/
theorem C7_stale_serves_current_cache (cfg : AgentConfig) (s : AgentState)
    (req : ReqOptions) (now t : Nat) (records : List Addr)
    (rands rest : List Nat) (ev : Event)
    (hrec : mapFind s.mappedRecord (srvKey cfg req) = some records)
    (ht : mapFind s.resolvedTimeMap (srvKey cfg req) = some t)
    (hint : 0 < cfg.intervalMilliSecs)
    (hstale : cfg.intervalMilliSecs ≤ now - t)
    (hsend : sentRequest rands records req = some (ev, rest)) :
    (addRequestStep cfg s req now rands).2 = some ev ∧
    (addRequestStep cfg s req now rands).1.mappedRecord = s.mappedRecord ∧
    (addRequestStep cfg s req now rands).1.resolvedTimeMap = s.resolvedTimeMap ∧
    (srvKey cfg req ∉ s.resolving →
      PendingLookup.refresh (srvKey cfg req)
        ∈ (addRequestStep cfg s req now rands).1.pending) := by
  by_cases hmem : srvKey cfg req ∈ s.resolving
  · rw [addRequestStep_stale_skip cfg s req now t rands records hrec ht hint hstale hmem]
    exact ⟨by rw [hsend]; rfl, rfl, rfl, fun hno => absurd hmem hno⟩
  · rw [addRequestStep_stale_start cfg s req now t rands records hrec ht hint hstale hmem]
    exact ⟨by rw [hsend]; rfl, rfl, rfl, fun _ => List.mem_cons_self _ _⟩

/-- Witness for C7 at `statePop` (entry resolved at time 0, interval
60000) queried at time 70000. -/
theorem C7_witness :
    (addRequestStep cfg1 statePop req0 70000 []).2
        = some (.dispatched rec0 8080) ∧
    (addRequestStep cfg1 statePop req0 70000 []).1.mappedRecord
        = statePop.mappedRecord ∧
    (addRequestStep cfg1 statePop req0 70000 []).1.resolvedTimeMap
        = statePop.resolvedTimeMap ∧
    (srvKey cfg1 req0 ∉ statePop.resolving →
      PendingLookup.refresh (srvKey cfg1 req0)
        ∈ (addRequestStep cfg1 statePop req0 70000 []).1.pending) :=
  C7_stale_serves_current_cache cfg1 statePop req0 70000 0 [rec0] [] []
    (.dispatched rec0 8080) (by decide) (by decide) (by decide) (by decide) (by decide)

/-- C9: `sentRequest` dispatches the selected record with the record's
own port when it is non-zero, and with the caller's original default port
when the record's port is 0 (the JS `addr.port || options.port`). -/
theorem C9_dispatch_port (rands : List Nat) (records : List Addr) (req : ReqOptions)
    (out : List Addr) (rest : List Nat) (addr : Addr)
    (h : groupSrvRecords rands records = some (out, rest))
    (hh : out.head? = some addr) :
    sentRequest rands records req
        = some (.dispatched addr (jsOr addr.port req.port), rest) ∧
    (addr.port ≠ 0 → jsOr addr.port req.port = addr.port) ∧
    (addr.port = 0 → jsOr addr.port req.port = req.port) := by
  refine ⟨?_, fun hnz => by simp [jsOr, hnz], fun hz => by simp [jsOr, hz]⟩
  simp [sentRequest, h, hh]

/-- A record whose SRV port field is 0, for the C9 witness. -/
def recPort0 : Addr := ⟨"p", 0, 1, 1⟩

/-- Witness for C9: the zero-port record is dispatched with the caller's
default port 8080. -/
theorem C9_witness :
    sentRequest [] [recPort0] ⟨"h", 8080⟩
        = some (.dispatched recPort0 (jsOr recPort0.port 8080), []) ∧
    (recPort0.port ≠ 0 → jsOr recPort0.port 8080 = recPort0.port) ∧
    (recPort0.port = 0 → jsOr recPort0.port 8080 = 8080) :=
  C9_dispatch_port [] [recPort0] ⟨"h", 8080⟩ [recPort0] [] recPort0 (by decide) (by decide)

/-- C10: cache well-formedness at every reachable state: a key has a
record list in `mappedRecord` iff it has a timestamp in `resolvedTimeMap`
(the two are always written together), and every stored record list is
non-empty (an empty lookup result is never written). -/
theorem C10_cache_wellformed (cfg : AgentConfig) (s : AgentState)
    (h : Reachable cfg s) (key : String) :
    ((mapFind s.mappedRecord key).isSome ↔ (mapFind s.resolvedTimeMap key).isSome) ∧
    (∀ addrs, mapFind s.mappedRecord key = some addrs → addrs ≠ []) := by
  induction h with
  | init => simp [initState, mapFind]
  | addReq req now rands hr ih =>
    rename_i s'
    obtain ⟨⟨hm, ht⟩, _⟩ := addRequestStep_char cfg s' req now rands
    rw [hm, ht]
    exact ih
  | refreshDone key' outcome now hr hmem ih =>
    rename_i s'
    obtain ⟨_, _, hmaps⟩ := completeRefreshStep_char s' key' outcome now
    rcases hmaps with ⟨hm, ht⟩ | ⟨addrs, _, hne, hm, ht⟩
    · rw [hm, ht]
      exact ih
    · rw [hm, ht, mapFind_mapSet, mapFind_mapSet]
      by_cases hk : key' = key
      · rw [if_pos hk, if_pos hk]
        refine ⟨by simp, fun a ha => ?_⟩
        have haa : addrs = a := by injection ha
        exact haa ▸ hne
      · rw [if_neg hk, if_neg hk]
        exact ih
  | firstDone key' req outcome now rands hr hmem ih =>
    rename_i s'
    obtain ⟨_, _, hmaps⟩ := completeFirstStep_char s' key' req outcome now rands
    rcases hmaps with ⟨hm, ht⟩ | ⟨addrs, _, hne, hm, ht⟩
    · rw [hm, ht]
      exact ih
    · rw [hm, ht, mapFind_mapSet, mapFind_mapSet]
      by_cases hk : key' = key
      · rw [if_pos hk, if_pos hk]
        refine ⟨by simp, fun a ha => ?_⟩
        have haa : addrs = a := by injection ha
        exact haa ▸ hne
      · rw [if_neg hk, if_neg hk]
        exact ih

/-- Witness for C10 at the reachable populated state `statePop`. -/
theorem C10_witness :
    ((mapFind statePop.mappedRecord (srvKey cfg1 req0)).isSome
       ↔ (mapFind statePop.resolvedTimeMap (srvKey cfg1 req0)).isSome) ∧
    (∀ addrs, mapFind statePop.mappedRecord (srvKey cfg1 req0) = some addrs →
      addrs ≠ []) :=
  C10_cache_wellformed cfg1 statePop
    (Reachable.firstDone (srvKey cfg1 req0) req0 (some [rec0]) 0 []
      (Reachable.addReq req0 0 [] Reachable.init) (by decide))
    (srvKey cfg1 req0)

end SrvAgent
